import Mathlib

/-!
Verification of the concurrent multi-symbol technical scan and rank engine
of the dma200 stock screener (files `screener/services.py`,
`screener/services_volume.py`, `screener/services_ma_monthly.py`, and the
parameter/cache-key handling of the corresponding views).

Modelling conventions:
* Python floats are embedded as `ℚ` (exact rationals).  `round(x, n)` is
  embedded as `roundQ`; Python rounds half-to-even on binary floats while
  `roundQ` rounds half-up, which agrees everywhere off exact halfway points;
  no value appearing in any theorem below sits at a halfway point.
* A pandas volume column after `.dropna().astype("int64")` is a `List ℤ`;
  a close column is a `List ℚ`.  Bar timestamps are strictly increasing and
  unique, so the label slice `vol.loc[:idx]` is the positional prefix
  through `idx`.
* A `ThreadPoolExecutor` fan-out gathered with `as_completed` delivers the
  per-symbol results in an arbitrary completion order: the scan functions
  below take their input list in completion order, and order-sensitivity is
  expressed by quantifying over permutations of that list.
* A unit of work whose `fut.result()` re-raises is modelled with `Except`:
  the gather loop has no `try`/`except`, so one raising unit aborts the
  whole scan.  `yfinance` fetch failures are caught inside `fetch_history`
  and are modelled as `none`.
-/

/- The Batteries rational-number arithmetic is `@[irreducible]`, which
prevents `decide` from evaluating concrete scan runs; restore the default
reducibility inside this file so that concrete witnesses reduce. -/
attribute [local semireducible] Rat.mul Rat.inv Rat.add Rat.sub

/- Concrete daily scans evaluate 210-bar series; raise the elaborator
recursion limit accordingly. -/
set_option maxRecDepth 4000

/-- Last `n` elements of a list (`pandas .tail(n)` for `n ≥ 0`). -/
def lastN {α : Type} (n : ℕ) (l : List α) : List α :=
  l.drop (l.length - n)

/-- Embedding of Python `round(x, n)` on exact rationals (see header note
about halfway points). -/
def roundQ (x : ℚ) (n : ℕ) : ℚ :=
  (round (x * 10 ^ n) : ℤ) / 10 ^ n

/-- Ascending lexicographic non-strict order on pairs, the order induced by
sorting on a two-component Python key tuple. -/
def lexLe {α β : Type} [LinearOrder α] [LinearOrder β] (p q : α × β) : Prop :=
  p.1 < q.1 ∨ (p.1 = q.1 ∧ p.2 ≤ q.2)

instance {α β : Type} [LinearOrder α] [LinearOrder β] :
    DecidableRel (lexLe (α := α) (β := β)) :=
  fun p q => decidable_of_iff (p.1 < q.1 ∨ (p.1 = q.1 ∧ p.2 ≤ q.2)) Iff.rfl

/-! ## Volume-spike engine (`screener/services_volume.py`) -/

/-- Position of the last strictly positive entry (the bar designated as
today by the use-last-nonzero policy: `nz = vol[vol > 0]; idx = nz.index[-1]`). -/
def lastPosIdx (l : List ℤ) : Option ℕ :=
  match l.reverse.findIdx? (fun v => decide (0 < v)) with
  | none => none
  | some j => some (l.length - 1 - j)

/-- Selection of the designated today bar and its prior window
(`compute_volume_ratio` lines 117-126): under `use_last_nonzero` today is
the last positive bar and the prior window is
`vol.loc[:idx].iloc[:-1].tail(window)`; otherwise today is the final bar
and the prior window is `vol.iloc[:-1].tail(window)`. -/
def volSelect (vol : List ℤ) (ulz : Bool) (window : ℕ) : Option (ℤ × List ℤ) :=
  if ulz then
    match lastPosIdx vol with
    | none => none
    | some i => some (vol.getD i 0, lastN window (vol.take i))
  else
    match vol.getLast? with
    | none => none
    | some t => some (t, lastN window vol.dropLast)

/-- Embedding of `compute_volume_ratio(df, window, use_last_nonzero)`:
today volume versus the max of the prior window, `none` when the bar count
is below `max(20, window + 5)`, the prior window is empty, or its max is
not strictly positive. -/
def compute_volume_ratio (vol : List ℤ) (window : ℕ) (ulz : Bool) :
    Option (ℤ × ℤ × ℚ) :=
  if vol.length < max 20 (window + 5) then none
  else
    match volSelect vol ulz window with
    | none => none
    | some (today, prior) =>
      if prior = [] then none
      else
        match prior.max? with
        | none => none
        | some m => if m ≤ 0 then none else some (today, m, (today : ℚ) / (m : ℚ))

/-- One output row of `top_volume_spikes`. -/
structure VolRow where
  symbol : String
  display : String
  today_volume : ℤ
  prev_window_max : ℤ
  ratio : ℚ
  multiple : ℚ
  window : ℕ
  in_nifty50 : Bool
deriving DecidableEq, Repr

/-- Per-symbol input of the volume scan: the symbol and the outcome of
`fetch_history` (`none` models an exception, an empty frame, or a missing
`Volume` column; `some vol` is the volume column after
`.dropna().astype("int64")`). -/
structure VolIn where
  symbol : String
  hist : Option (List ℤ)
deriving DecidableEq, Repr

def nsSuffix : String := ".NS"

def emptyStr : String := ""

def nifty50Tag : String := " (NIFTY50)"

/-- Left-to-right non-overlapping replacement on character lists, the
semantics of Python `str.replace` (fuel-based so that it reduces in the
kernel; the fuel is the input length, which suffices because every step
consumes at least one character). -/
def replaceAux (pat rep : List Char) : ℕ → List Char → List Char
  | _, [] => []
  | 0, l => l
  | Nat.succ n, c :: cs =>
    if pat.isPrefixOf (c :: cs) ∧ pat ≠ [] then
      rep ++ replaceAux pat rep n ((c :: cs).drop pat.length)
    else c :: replaceAux pat rep n cs

/-- Embedding of Python `s.replace(pat, rep)` (for non-empty `pat`). -/
def pyReplace (s pat rep : String) : String :=
  String.mk (replaceAux pat.toList rep.toList s.toList.length s.toList)

/-- Embedding of the per-symbol closure `task(sym)` of `top_volume_spikes`. -/
def taskVol (window : ℕ) (ulz : Bool) (factor : ℚ) (in50 : String → Bool)
    (inp : VolIn) : Option VolRow :=
  match inp.hist with
  | none => none
  | some vol =>
    match compute_volume_ratio vol window ulz with
    | none => none
    | some (today, prevMax, r) =>
      if r < factor then none
      else
        some { symbol := inp.symbol
               display := (pyReplace inp.symbol nsSuffix emptyStr) ++
                 (if in50 inp.symbol then nifty50Tag else emptyStr)
               today_volume := today
               prev_window_max := prevMax
               ratio := roundQ (100 * r) 2
               multiple := roundQ r 2
               window := window
               in_nifty50 := in50 inp.symbol }

/-- The rank order of `top_volume_spikes`:
`results.sort(key=lambda r: (r["multiple"], r["today_volume"]), reverse=True)`,
a stable descending sort on the (rounded) multiple tie-broken by today's
volume.  `volLe a b` holds when `a` may precede `b`. -/
def volLe (a b : VolRow) : Prop :=
  lexLe (b.multiple, b.today_volume) (a.multiple, a.today_volume)

instance : DecidableRel volLe :=
  fun a b => decidable_of_iff
    (lexLe (b.multiple, b.today_volume) (a.multiple, a.today_volume)) Iff.rfl

theorem lexLe_total {α β : Type} [LinearOrder α] [LinearOrder β]
    (p q : α × β) : lexLe p q ∨ lexLe q p := by
  rcases lt_trichotomy p.1 q.1 with h | h | h
  · exact Or.inl (Or.inl h)
  · rcases le_total p.2 q.2 with h2 | h2
    · exact Or.inl (Or.inr ⟨h, h2⟩)
    · exact Or.inr (Or.inr ⟨h.symm, h2⟩)
  · exact Or.inr (Or.inl h)

theorem lexLe_trans {α β : Type} [LinearOrder α] [LinearOrder β]
    {p q r : α × β} (hpq : lexLe p q) (hqr : lexLe q r) : lexLe p r := by
  rcases hpq with h | ⟨he, h2⟩
  · rcases hqr with h3 | ⟨he3, _⟩
    · exact Or.inl (h.trans h3)
    · exact Or.inl (he3 ▸ h)
  · rcases hqr with h3 | ⟨he3, h4⟩
    · exact Or.inl (he ▸ h3)
    · exact Or.inr ⟨he.trans he3, h2.trans h4⟩

theorem lexLe_antisymm {α β : Type} [LinearOrder α] [LinearOrder β]
    {p q : α × β} (hpq : lexLe p q) (hqp : lexLe q p) : p = q := by
  rcases hpq with h | ⟨he, h2⟩
  · rcases hqp with h3 | ⟨he3, _⟩
    · exact absurd (h.trans h3) (lt_irrefl _)
    · exact absurd h (he3 ▸ lt_irrefl _)
  · rcases hqp with h3 | ⟨he3, h4⟩
    · exact absurd h3 (he ▸ lt_irrefl _)
    · exact Prod.ext he (le_antisymm h2 h4)

instance : IsTotal VolRow volLe :=
  ⟨fun a b => lexLe_total (b.multiple, b.today_volume) (a.multiple, a.today_volume)⟩

instance : IsTrans VolRow volLe :=
  ⟨fun _ _ _ hab hbc => lexLe_trans hbc hab⟩

/-- The rows gathered by the `as_completed` loop of `top_volume_spikes`,
in completion order. -/
def gatherVol (inputs : List VolIn) (window : ℕ) (ulz : Bool) (factor : ℚ)
    (in50 : String → Bool) : List VolRow :=
  inputs.filterMap (taskVol window ulz factor in50)

/-- Embedding of `top_volume_spikes(symbols, factor, limit, window,
use_last_nonzero)`: gather, stable sort by `(multiple, today_volume)`
descending, truncate to `max(1, limit)`.  The input list is in unit
completion order. -/
def top_volume_spikes (inputs : List VolIn) (factor : ℚ) (limit : ℤ)
    (window : ℕ) (ulz : Bool) (in50 : String → Bool) : List VolRow :=
  List.take (max 1 limit).toNat
    (List.insertionSort volLe (gatherVol inputs window ulz factor in50))

/-! ## Daily 200-DMA engine (`screener/services.py`) -/

/-- A daily history frame as used by `scan_at_200dma`: either it carries a
`Close` column (the row count is the column length) or the column is
absent (`df["Close"]` then raises `KeyError`), in which case only the row
count is relevant. -/
inductive DailyFrame
  | withClose (closes : List ℚ)
  | noClose (nrows : ℕ)
deriving DecidableEq, Repr

/-- Row count `df.shape[0]`. -/
def DailyFrame.shape : DailyFrame → ℕ
  | .withClose closes => closes.length
  | .noClose n => n

/-- Outcome of the raw `yf.Ticker(symbol).history(...)` call: the provider
either raises or returns an optional frame. -/
inductive FetchResp
  | raises
  | ok (f : Option DailyFrame)
deriving DecidableEq, Repr

/-- Embedding of `fetch_history` in `screener/services.py`: exceptions are
caught and, like a missing or empty frame, collapse to `None`. -/
def fetch_history : FetchResp → Option DailyFrame
  | .raises => none
  | .ok none => none
  | .ok (some f) => if f.shape = 0 then none else some f

/-- One universe entry as passed to `scan_at_200dma`, together with the
data-source response for its symbol. -/
structure TickerIn where
  symbol : String
  name : String
  in_nifty50 : Bool
  resp : FetchResp
deriving DecidableEq, Repr

/-- Embedding of the `ScanResult` dataclass. -/
structure ScanResult where
  symbol : String
  name : String
  close : ℚ
  sma200 : ℚ
  distance_pct : ℚ
  in_nifty50 : Bool
deriving DecidableEq, Repr

/-- Last value of `close.rolling(200).mean()`: the mean of the last 200
closes (defined whenever at least 200 closes exist, which the caller
guarantees via the 210-row check; `np.isnan` is vacuous over `ℚ`). -/
def sma200_last (closes : List ℚ) : ℚ :=
  (lastN 200 closes).sum / 200

/-- Embedding of the per-symbol closure `worker(tk)` of `scan_at_200dma`.
`Except` models an uncaught exception escaping the unit of work: the only
fault source remaining after `fetch_history` is the `KeyError` raised by
`df["Close"]` on a frame with no `Close` column. -/
def workerDaily (tk : TickerIn) (tol : ℚ) : Except Unit (Option ScanResult) :=
  match fetch_history tk.resp with
  | none => .ok none
  | some (.noClose n) =>
    if n < 210 then .ok none
    else .error ()
  | some (.withClose closes) =>
    if h : closes.length < 210 then .ok none
    else
      have hne : closes ≠ [] := by
        intro hnil
        rw [hnil] at h
        exact h (by norm_num)
      let last_close := closes.getLast hne
      let last_sma := sma200_last closes
      if last_sma = 0 then .ok none
      else
        let dist := (last_close - last_sma) / last_sma
        if |dist| ≤ tol then
          .ok (some { symbol := tk.symbol
                      name := tk.name
                      close := roundQ last_close 2
                      sma200 := roundQ last_sma 2
                      distance_pct := roundQ (dist * 100) 3
                      in_nifty50 := tk.in_nifty50 })
        else .ok none

deriving instance DecidableEq for Except

/-- The `as_completed` gather loop of `scan_at_200dma`, with the input list
in unit completion order.  `fut.result()` is called with no surrounding
`try`, so the first raising unit aborts the loop and the exception escapes
the scan. -/
def gatherDaily (tks : List TickerIn) (tol : ℚ) : Except Unit (List ScanResult) :=
  match tks with
  | [] => .ok []
  | tk :: rest =>
    match workerDaily tk tol with
    | .error e => .error e
    | .ok none => gatherDaily rest tol
    | .ok (some r) => (gatherDaily rest tol).map (fun l => r :: l)

/-- The rank order of `scan_at_200dma`:
`sorted(results, key=lambda r: abs(r.distance_pct))`. -/
def dailyLe (a b : ScanResult) : Prop :=
  |a.distance_pct| ≤ |b.distance_pct|

instance : DecidableRel dailyLe :=
  fun a b => decidable_of_iff (|a.distance_pct| ≤ |b.distance_pct|) Iff.rfl

instance : IsTotal ScanResult dailyLe :=
  ⟨fun a b => le_total (|a.distance_pct|) (|b.distance_pct|)⟩

instance : IsTrans ScanResult dailyLe :=
  ⟨fun _ _ _ hab hbc => le_trans hab hbc⟩

/-- Embedding of `scan_at_200dma(tickers, tol)`: gather in completion
order, then stable sort by absolute signed distance ascending. -/
def scan_at_200dma (tks : List TickerIn) (tol : ℚ) : Except Unit (List ScanResult) :=
  (gatherDaily tks tol).map (List.insertionSort dailyLe)

/-! ## Monthly MA engine (`screener/services_ma_monthly.py`) -/

/-- Per-symbol input of the monthly scan: the symbol and the outcome of
`_fetch_monthly` (`none` models an exception, an empty frame, or a frame
with no `Close` column; `some closes` is the close column after
`dropna`). -/
structure MonIn where
  symbol : String
  hist : Option (List ℚ)
deriving DecidableEq, Repr

/-- One match row of a monthly-MA bucket (the per-window `sma{m}` dict key
is the `sma` field here). -/
structure MonMatch where
  symbol : String
  display : String
  close : ℚ
  sma : ℚ
  distance_pct : ℚ
  in_nifty50 : Bool
deriving DecidableEq, Repr

/-- Last value of `close.rolling(n).mean()` on the monthly series. -/
def sma_last (closes : List ℚ) (n : ℕ) : ℚ :=
  (lastN n closes).sum / n

/-- Embedding of `_sma_distance_monthly(df, n)`: `none` when fewer than `n`
bars exist or the moving average is zero, otherwise
`(last_close, sma_n, 100 * (close - sma) / sma)`. -/
def sma_distance_monthly (closes : List ℚ) (n : ℕ) : Option (ℚ × ℚ × ℚ) :=
  if closes.length < n then none
  else
    match closes.getLast? with
    | none => none
    | some last_close =>
      let last_sma := sma_last closes n
      if last_sma = 0 then none
      else some (last_close, last_sma, 100 * (last_close - last_sma) / last_sma)

/-- The matches collected for one MA window `m` by the bucket loop of
`scan_monthly_ma`, in row (completion) order: a row qualifies when
`_sma_distance_monthly` succeeded for `m` and the rounded distance is
within `tol * 100`. -/
def monthlyMatchesFor (m : ℕ) (tol : ℚ) (in50 : String → Bool)
    (inputs : List MonIn) : List MonMatch :=
  inputs.filterMap (fun inp =>
    match inp.hist with
    | none => none
    | some closes =>
      match sma_distance_monthly closes m with
      | none => none
      | some (c, s, d) =>
        let dr := roundQ d 3
        if |dr| ≤ tol * 100 then
          some { symbol := inp.symbol
                 display := (pyReplace inp.symbol nsSuffix emptyStr) ++
                   (if in50 inp.symbol then nifty50Tag else emptyStr)
                 close := roundQ c 2
                 sma := roundQ s 2
                 distance_pct := dr
                 in_nifty50 := in50 inp.symbol }
        else none)

/-- The rank order of `scan_monthly_ma`:
`matches.sort(key=lambda x: (abs(x["distance_pct"]), -x["close"]))`. -/
def monLe (a b : MonMatch) : Prop :=
  lexLe (|a.distance_pct|, -a.close) (|b.distance_pct|, -b.close)

instance : DecidableRel monLe :=
  fun a b => decidable_of_iff
    (lexLe (|a.distance_pct|, -a.close) (|b.distance_pct|, -b.close)) Iff.rfl

instance : IsTotal MonMatch monLe :=
  ⟨fun a b => lexLe_total (|a.distance_pct|, -a.close) (|b.distance_pct|, -b.close)⟩

instance : IsTrans MonMatch monLe :=
  ⟨fun _ _ _ hab hbc => lexLe_trans hab hbc⟩

/-- Embedding of `scan_monthly_ma(symbols, ma_list, tol, limit)`: per MA
window, collect the qualifying rows in completion order, stable sort by
`(abs(distance), -close)` ascending and truncate to `max(1, limit)`.  The
per-window buckets of the output dict are returned keyed in `ma_list`
order. -/
def scan_monthly_ma (inputs : List MonIn) (ma_list : List ℕ) (tol : ℚ)
    (limit : ℤ) (in50 : String → Bool) : List (ℕ × List MonMatch) :=
  ma_list.map (fun m =>
    (m, List.take (max 1 limit).toNat
      (List.insertionSort monLe (monthlyMatchesFor m tol in50 inputs))))

/-! ## View layer: parameter parsing and cache keys
(`screener/views.py`, `screener/views_volume.py`, `screener/views_ma_monthly.py`) -/

/-- Strip leading and trailing whitespace (Python `str.strip()`). -/
def trimChars (cs : List Char) : List Char :=
  ((cs.dropWhile Char.isWhitespace).reverse.dropWhile Char.isWhitespace).reverse

/-- Value of a list of decimal digit characters. -/
def digitsVal (cs : List Char) : ℕ :=
  cs.foldl (fun acc c => 10 * acc + (c.toNat - 48)) 0

/-- A non-empty all-digit character list, or `none`. -/
def parseDigits (cs : List Char) : Option ℕ :=
  if cs ≠ [] ∧ cs.all Char.isDigit then some (digitsVal cs) else none

/-- Embedding of Python `int(str)` on an already-stripped character list:
optional sign followed by decimal digits (digit-group underscores are not
modelled; they never occur in the requests considered here). -/
def pyParseIntChars (cs : List Char) : Option ℤ :=
  match cs with
  | [] => none
  | c :: rest =>
    if c = '+' then (parseDigits rest).map (fun n => (n : ℤ))
    else if c = '-' then (parseDigits rest).map (fun n => -(n : ℤ))
    else (parseDigits (c :: rest)).map (fun n => (n : ℤ))

/-- Embedding of Python `int(s)`: `none` models `ValueError`. -/
def pyParseInt (s : String) : Option ℤ :=
  pyParseIntChars (trimChars s.toList)

/-- Decimal part of Python `float` parsing on a stripped, unsigned
character list: digits, optionally with one decimal point
(exponents and the inf/nan spellings are not modelled; they never occur in
the requests considered here). -/
def parseDecChars (cs : List Char) : Option ℚ :=
  let whole := cs.takeWhile (fun c => c != '.')
  match cs.dropWhile (fun c => c != '.') with
  | [] => (parseDigits whole).map (fun n => (n : ℚ))
  | _ :: frac =>
    if frac.contains '.' then none
    else if whole = [] ∧ frac = [] then none
    else if whole.all Char.isDigit ∧ frac.all Char.isDigit then
      some ((digitsVal whole : ℚ) + (digitsVal frac : ℚ) / 10 ^ frac.length)
    else none

/-- Embedding of Python `float(s)`: `none` models `ValueError`. -/
def pyParseFloat (s : String) : Option ℚ :=
  match trimChars s.toList with
  | [] => none
  | c :: rest =>
    if c = '+' then parseDecChars rest
    else if c = '-' then (parseDecChars rest).map Neg.neg
    else parseDecChars (c :: rest)

/-- Embedding of the `factor` parameter read of `api_volume_spikes`:
`float(request.GET.get("factor", 3.0))` with `ValueError` ↦ `3.0`. -/
def parse_factor (s : Option String) : ℚ :=
  match s with
  | none => 3
  | some str => (pyParseFloat str).getD 3

/-- Embedding of the `limit` parameter read of `api_volume_spikes`
(default 5). -/
def parse_limit_volume (s : Option String) : ℤ :=
  match s with
  | none => 5
  | some str => (pyParseInt str).getD 5

/-- Embedding of the `window` parameter read of `api_volume_spikes`:
`int(request.GET.get("window", 100))` with `ValueError` ↦ `100`.  No
positivity check is applied. -/
def parse_window_volume (s : Option String) : ℤ :=
  match s with
  | none => 100
  | some str => (pyParseInt str).getD 100

/-- Embedding of the `tol` parameter read of `api_scan` and
`api_ma_monthly` (default `0.003`). -/
def parse_tol (s : Option String) : ℚ :=
  match s with
  | none => 3/1000
  | some str => (pyParseFloat str).getD (3/1000)

/-- Embedding of the `limit` parameter read of `api_ma_monthly`
(default 50). -/
def parse_limit_monthly (s : Option String) : ℤ :=
  match s with
  | none => 50
  | some str => (pyParseInt str).getD 50

def defaultMaStr : String := "50,100"

/-- Split a character list at commas. -/
def splitComma : List Char → List (List Char)
  | [] => [[]]
  | c :: cs =>
    if c = ',' then [] :: splitComma cs
    else
      match splitComma cs with
      | [] => [[c]]
      | t :: ts => (c :: t) :: ts

/-- Embedding of the `ma` parameter read of `api_ma_monthly`: the
comma-separated tokens that parse as positive integers; when none remain
(including an absent or empty parameter) the default `[50, 100]`. -/
def parse_ma_list (s : Option String) : List ℤ :=
  let base :=
    match s with
    | none => defaultMaStr
    | some str => if str.toList = [] then defaultMaStr else str
  let vals := (splitComma (trimChars base.toList)).filterMap (fun tokRaw =>
    let t := trimChars tokRaw
    if t = [] then none
    else
      match pyParseIntChars t with
      | none => none
      | some v => if 0 < v then some v else none)
  if vals = [] then [50, 100] else vals

/-- Left-pad a natural number with zeros to `w` digits. -/
def natPadLeft (k w : ℕ) : String :=
  String.mk (List.replicate (w - (toString k).length) '0') ++ toString k

/-- Embedding of Python fixed-point formatting `f"{q:.n.f}"` on exact
rationals (Python formats the nearest binary double half-to-even; off
halfway points, as everywhere below, the results agree). -/
def fmtFixed (q : ℚ) (n : ℕ) : String :=
  let scaled : ℤ := round (q * 10 ^ n)
  let sign := if scaled < 0 then "-" else emptyStr
  let m := scaled.natAbs
  sign ++ toString (m / 10 ^ n) ++ "." ++ natPadLeft (m % 10 ^ n) n

def dashStr : String := "-"

/-- Embedding of the cache key of `api_volume_spikes` (line 70):
`f"volspike_{universe}_win_{window}_factor_{factor:.3f}_limit_{limit}_count_{len(symbols)}_ulz_{int(use_last_nonzero)}"`. -/
def volspike_cache_key (univ : String) (window : ℤ) (factor : ℚ)
    (limit : ℤ) (symbols : List String) (ulz : Bool) : String :=
  "volspike_" ++ univ ++ "_win_" ++ toString window ++
  "_factor_" ++ fmtFixed factor 3 ++ "_limit_" ++ toString limit ++
  "_count_" ++ toString symbols.length ++ "_ulz_" ++ (if ulz then "1" else "0")

/-- Embedding of the cache key of `api_ma_monthly` (line 74):
`f"ma_monthly_{universe}_ma_{'-'.join(map(str,sorted(ma_list)))}_tol_{tol:.4f}_lim_{limit}_nsyms_{len(symbols)}"`. -/
def ma_monthly_cache_key (univ : String) (ma_list : List ℤ) (tol : ℚ)
    (limit : ℤ) (symbols : List String) : String :=
  "ma_monthly_" ++ univ ++ "_ma_" ++
  String.intercalate dashStr
    ((List.insertionSort (fun a b => a ≤ b) ma_list).map toString) ++
  "_tol_" ++ fmtFixed tol 4 ++ "_lim_" ++ toString limit ++
  "_nsyms_" ++ toString symbols.length

/-! ## Supporting lemmas -/

def noTag : String → Bool := fun _ => false

/-- The per-symbol outcomes of the daily scan that survive the gather, in
completion order (the value of the gather loop when no unit raises). -/
def dailyCollect (tks : List TickerIn) (tol : ℚ) : List ScanResult :=
  tks.filterMap (fun tk =>
    match workerDaily tk tol with
    | .ok o => o
    | .error _ => none)

def nifty100Str : String := "nifty100"

def relSym : String := "RELIANCE.NS"

def tcsSym : String := "TCS.NS"

def negFiveStr : String := "-5"

def abcStr : String := "abc"

/-- A stable data source for the cache-key counterexample: every symbol
resolves to the same 105-bar volume series ending in a 4x spike. -/
def dataC9 : String → Option (List ℤ) :=
  fun _ => some (List.replicate 104 100 ++ [400])

/-- Two sorted lists that are permutations of each other and whose order
relation is antisymmetric on the elements actually present are equal.
This is the local-antisymmetry variant of `List.eq_of_perm_of_sorted`:
the scan rank orders are not globally antisymmetric (distinct matches may
share a rank key), so antisymmetry is assumed only on the gathered list. -/
theorem pairwise_perm_eq {α : Type} {r : α → α → Prop} :
    ∀ {l₁ l₂ : List α}, l₁.Perm l₂ → l₁.Pairwise r → l₂.Pairwise r →
      (∀ a ∈ l₁, ∀ b ∈ l₁, r a b → r b a → a = b) → l₁ = l₂ := by
  intro l₁
  induction l₁ with
  | nil =>
    intro l₂ hp _ _ _
    exact (hp.symm.eq_nil).symm
  | cons a t₁ ih =>
    intro l₂ hp hs₁ hs₂ hanti
    cases l₂ with
    | nil => exact absurd hp.eq_nil (by simp)
    | cons b t₂ =>
      have hab : a = b := by
        have ha2 : a ∈ b :: t₂ := hp.subset (List.mem_cons_self a t₁)
        rcases List.mem_cons.mp ha2 with h | hat2
        · exact h
        · have hb1 : b ∈ a :: t₁ := hp.symm.subset (List.mem_cons_self b t₂)
          rcases List.mem_cons.mp hb1 with h | hbt1
          · exact h.symm
          · have hrab : r a b := (List.pairwise_cons.mp hs₁).1 b hbt1
            have hrba : r b a := (List.pairwise_cons.mp hs₂).1 a hat2
            exact hanti a (List.mem_cons_self a t₁)
              b (List.mem_cons_of_mem a hbt1) hrab hrba
      subst hab
      have hp' : t₁.Perm t₂ := hp.cons_inv
      have ht : t₁ = t₂ := by
        refine ih hp' (List.pairwise_cons.mp hs₁).2 (List.pairwise_cons.mp hs₂).2 ?_
        intro x hx y hy
        exact hanti x (List.mem_cons_of_mem a hx) y (List.mem_cons_of_mem a hy)
      rw [ht]

theorem exceptMap_eq_error {α β : Type} (f : α → β) (x : Except Unit α) :
    x.map f = Except.error () ↔ x = Except.error () := by
  cases x with
  | error e => cases e; simp [Except.map]
  | ok a => simp [Except.map]

theorem exceptMap_eq_ok {α β : Type} (f : α → β) (x : Except Unit α) (b : β) :
    x.map f = Except.ok b ↔ ∃ a, x = Except.ok a ∧ b = f a := by
  cases x with
  | error e => simp [Except.map]
  | ok a => simp [Except.map, eq_comm]

theorem gatherDaily_eq_error_iff (tks : List TickerIn) (tol : ℚ) :
    gatherDaily tks tol = Except.error () ↔
      ∃ tk ∈ tks, workerDaily tk tol = Except.error () := by
  induction tks with
  | nil => simp [gatherDaily]
  | cons tk rest ih =>
    rcases hw : workerDaily tk tol with e | o
    · cases e
      simp [gatherDaily, hw]
    · cases o with
      | none =>
        simp only [gatherDaily, hw, ih, List.mem_cons]
        constructor
        · rintro ⟨x, hx, he⟩
          exact ⟨x, Or.inr hx, he⟩
        · rintro ⟨x, hx | hx, he⟩
          · rw [hx] at he
            rw [he] at hw
            cases hw
          · exact ⟨x, hx, he⟩
      | some r =>
        simp only [gatherDaily, hw, exceptMap_eq_error, ih, List.mem_cons]
        constructor
        · rintro ⟨x, hx, he⟩
          exact ⟨x, Or.inr hx, he⟩
        · rintro ⟨x, hx | hx, he⟩
          · rw [hx] at he
            rw [he] at hw
            cases hw
          · exact ⟨x, hx, he⟩

theorem gatherDaily_eq_ok_iff (tks : List TickerIn) (tol : ℚ)
    (res : List ScanResult) :
    gatherDaily tks tol = Except.ok res ↔
      (∀ tk ∈ tks, workerDaily tk tol ≠ Except.error ()) ∧
        res = dailyCollect tks tol := by
  induction tks generalizing res with
  | nil => simp [gatherDaily, dailyCollect, eq_comm]
  | cons tk rest ih =>
    rcases hw : workerDaily tk tol with e | o
    · cases e
      simp only [gatherDaily, hw]
      constructor
      · intro h
        cases h
      · rintro ⟨hall, _⟩
        exact absurd hw (hall tk (List.mem_cons_self tk rest))
    · cases o with
      | none =>
        simp only [gatherDaily, hw, ih, dailyCollect, List.filterMap_cons, hw,
          List.mem_cons]
        constructor
        · rintro ⟨hall, hres⟩
          refine ⟨?_, hres⟩
          rintro x (hx | hx)
          · rw [hx, hw]
            intro h
            cases h
          · exact hall x hx
        · rintro ⟨hall, hres⟩
          exact ⟨fun x hx => hall x (Or.inr hx), hres⟩
      | some r =>
        simp only [gatherDaily, hw, exceptMap_eq_ok, dailyCollect,
          List.filterMap_cons, hw, List.mem_cons]
        constructor
        · rintro ⟨l, hl, hres⟩
          rcases (ih l).mp hl with ⟨hall, hcol⟩
          refine ⟨?_, ?_⟩
          · rintro x (hx | hx)
            · rw [hx, hw]
              intro h
              cases h
            · exact hall x hx
          · rw [hres, hcol]
            rfl
        · rintro ⟨hall, hres⟩
          refine ⟨dailyCollect rest tol,
            (ih _).mpr ⟨fun x hx => hall x (Or.inr hx), rfl⟩, ?_⟩
          rw [hres]
          rfl

theorem mem_dailyCollect {tks : List TickerIn} {tol : ℚ} {r : ScanResult}
    (h : r ∈ dailyCollect tks tol) :
    ∃ tk ∈ tks, workerDaily tk tol = Except.ok (some r) := by
  rcases List.mem_filterMap.mp h with ⟨tk, htk, hr⟩
  refine ⟨tk, htk, ?_⟩
  split at hr
  · rename_i o hw
    rw [hw, hr]
  · rename_i e hw
    cases hr

theorem workerDaily_ok_some_inv {tk : TickerIn} {tol : ℚ} {r : ScanResult}
    (h : workerDaily tk tol = Except.ok (some r)) :
    ∃ closes, fetch_history tk.resp = some (DailyFrame.withClose closes) ∧
      ¬ closes.length < 210 ∧ sma200_last closes ≠ 0 ∧ r.symbol = tk.symbol := by
  unfold workerDaily at h
  split at h
  · simp at h
  · split at h
    · simp at h
    · simp at h
  · rename_i closes hf
    by_cases hl : closes.length < 210
    · rw [dif_pos hl] at h
      simp at h
    · rw [dif_neg hl] at h
      dsimp only at h
      split at h
      · simp at h
      · rename_i hz
        split at h
        · simp only [Except.ok.injEq, Option.some.injEq] at h
          subst h
          exact ⟨closes, hf, hl, hz, rfl⟩
        · simp at h

theorem scan_at_200dma_ok_inv {tks : List TickerIn} {tol : ℚ}
    {res : List ScanResult} (h : scan_at_200dma tks tol = Except.ok res) :
    res = List.insertionSort dailyLe (dailyCollect tks tol) := by
  unfold scan_at_200dma at h
  rcases (exceptMap_eq_ok _ _ _).mp h with ⟨g, hg, hres⟩
  rcases (gatherDaily_eq_ok_iff tks tol g).mp hg with ⟨_, hcol⟩
  rw [hres, hcol]

theorem taskVol_some_inv {window : ℕ} {ulz : Bool} {factor : ℚ}
    {in50 : String → Bool} {inp : VolIn} {r : VolRow}
    (h : taskVol window ulz factor in50 inp = some r) :
    r.symbol = inp.symbol ∧
      ∃ vol today m rat, inp.hist = some vol ∧
        compute_volume_ratio vol window ulz = some (today, m, rat) := by
  unfold taskVol at h
  split at h
  · simp at h
  · rename_i vol hh
    split at h
    · simp at h
    · rename_i today prevMax rat hc
      split at h
      · simp at h
      · simp only [Option.some.injEq] at h
        subst h
        exact ⟨rfl, vol, today, prevMax, rat, hh, hc⟩

theorem mem_top_volume_spikes {inputs : List VolIn} {factor : ℚ} {limit : ℤ}
    {window : ℕ} {ulz : Bool} {in50 : String → Bool} {r : VolRow}
    (h : r ∈ top_volume_spikes inputs factor limit window ulz in50) :
    ∃ inp ∈ inputs, taskVol window ulz factor in50 inp = some r := by
  have h1 : r ∈ List.insertionSort volLe (gatherVol inputs window ulz factor in50) :=
    List.mem_of_mem_take h
  have h2 : r ∈ gatherVol inputs window ulz factor in50 :=
    (List.perm_insertionSort volLe _).subset h1
  exact List.mem_filterMap.mp h2

theorem compute_volume_ratio_short {vol : List ℤ} {window : ℕ} {ulz : Bool}
    (h : vol.length < window) : compute_volume_ratio vol window ulz = none := by
  unfold compute_volume_ratio
  have hlt : vol.length < max 20 (window + 5) :=
    lt_of_lt_of_le h (le_trans (Nat.le_add_right window 5) (le_max_right 20 (window + 5)))
  rw [if_pos hlt]

theorem compute_volume_ratio_some_inv {vol : List ℤ} {window : ℕ} {ulz : Bool}
    {today m : ℤ} {rat : ℚ}
    (h : compute_volume_ratio vol window ulz = some (today, m, rat)) :
    ¬ vol.length < max 20 (window + 5) ∧
      ∃ prior, volSelect vol ulz window = some (today, prior) ∧
        prior.max? = some m ∧ ¬ m ≤ 0 ∧ rat = (today : ℚ) / (m : ℚ) := by
  unfold compute_volume_ratio at h
  by_cases hl : vol.length < max 20 (window + 5)
  · rw [if_pos hl] at h
    cases h
  · rw [if_neg hl] at h
    refine ⟨hl, ?_⟩
    split at h
    · cases h
    · rename_i t2 prior hs
      split at h
      · cases h
      · rename_i hp
        split at h
        · cases h
        · rename_i m2 hm
          split at h
          · cases h
          · rename_i hm0
            simp only [Option.some.injEq, Prod.mk.injEq] at h
            obtain ⟨ht, hmm, hrat⟩ := h
            subst ht
            subst hmm
            exact ⟨prior, hs, hm, hm0, hrat.symm⟩

theorem mem_monthly_bucket {inputs : List MonIn} {ma_list : List ℕ} {tol : ℚ}
    {limit : ℤ} {in50 : String → Bool} {m : ℕ} {bucket : List MonMatch}
    (h : (m, bucket) ∈ scan_monthly_ma inputs ma_list tol limit in50) :
    bucket = List.take (max 1 limit).toNat
      (List.insertionSort monLe (monthlyMatchesFor m tol in50 inputs)) := by
  rcases List.mem_map.mp h with ⟨m2, _, heq⟩
  have hm : m2 = m := congrArg Prod.fst heq
  have hb := congrArg Prod.snd heq
  rw [hm] at hb
  exact hb.symm

theorem mem_monthlyMatchesFor {m : ℕ} {tol : ℚ} {in50 : String → Bool}
    {inputs : List MonIn} {r : MonMatch}
    (h : r ∈ monthlyMatchesFor m tol in50 inputs) :
    ∃ inp ∈ inputs, r.symbol = inp.symbol ∧
      ∃ closes c s d, inp.hist = some closes ∧
        sma_distance_monthly closes m = some (c, s, d) := by
  rcases List.mem_filterMap.mp h with ⟨inp, hmem, hr⟩
  refine ⟨inp, hmem, ?_⟩
  split at hr
  · cases hr
  · rename_i closes hh
    split at hr
    · cases hr
    · rename_i c s d hc
      split at hr <;> dsimp only at hr <;> split at hr
      · simp only [Option.some.injEq] at hr
        subst hr
        exact ⟨rfl, closes, c, s, d, hh, hc⟩
      · cases hr
      · simp only [Option.some.injEq] at hr
        subst hr
        exact ⟨rfl, closes, c, s, d, hh, hc⟩
      · cases hr

theorem sma_distance_monthly_short {closes : List ℚ} {n : ℕ}
    (h : closes.length < n) : sma_distance_monthly closes n = none := by
  unfold sma_distance_monthly
  rw [if_pos h]

theorem sma_distance_monthly_zero {closes : List ℚ} {n : ℕ}
    (h : sma_last closes n = 0) : sma_distance_monthly closes n = none := by
  unfold sma_distance_monthly
  by_cases hl : closes.length < n
  · rw [if_pos hl]
  · rw [if_neg hl]
    split
    · rfl
    · rw [if_pos h]

/-! ## Claim theorems -/

/-- C1 (counterexample): the claim orders volume-spike matches by
descending `ratio` (ties broken by descending `today_volume`), but on this
concrete scan the two adjacent matches carry strictly increasing `ratio`
fields (200.40 then 200.49), because the engine sorts by the 2-decimal
rounded `multiple` (2.00 for both) and then by descending volume. -/
theorem c1_counterexample :
    (top_volume_spikes
      [⟨"A.NS", some (List.replicate 19 100000 ++ [200400])⟩,
       ⟨"B.NS", some (List.replicate 19 10000 ++ [20049])⟩]
      2 5 15 false noTag).map VolRow.ratio = [2004/10, 20049/100] ∧
    ((2004 : ℚ)/10 < 20049/100) := by decide

/-- C1 (amended): in every volume-spike result list, adjacent matches are
ordered by descending rounded `multiple`, with ties in `multiple` broken by
descending `today_volume`; the finer-grained `ratio` field may increase
across a tie in `multiple`. -/
theorem c1_volume_rank_order (inputs : List VolIn) (factor : ℚ) (limit : ℤ)
    (window : ℕ) (ulz : Bool) (in50 : String → Bool) :
    (top_volume_spikes inputs factor limit window ulz in50).Chain'
      (fun a b => b.multiple < a.multiple ∨
        (b.multiple = a.multiple ∧ b.today_volume ≤ a.today_volume)) := by
  have hs : (List.insertionSort volLe
      (gatherVol inputs window ulz factor in50)).Pairwise volLe :=
    List.sorted_insertionSort volLe _
  have ht : (top_volume_spikes inputs factor limit window ulz in50).Pairwise volLe :=
    List.Pairwise.sublist (List.take_sublist _ _) hs
  exact ht.chain'

/-- C6: in every MA-proximity result list (daily 200-DMA scan and each
monthly-MA bucket), adjacent matches are ordered by ascending absolute
signed distance. -/
theorem c6_ma_sorted :
    (∀ (tks : List TickerIn) (tol : ℚ) (res : List ScanResult),
      scan_at_200dma tks tol = Except.ok res →
      res.Chain' (fun a b => |a.distance_pct| ≤ |b.distance_pct|)) ∧
    (∀ (inputs : List MonIn) (ma_list : List ℕ) (tol : ℚ) (limit : ℤ)
      (in50 : String → Bool) (m : ℕ) (bucket : List MonMatch),
      (m, bucket) ∈ scan_monthly_ma inputs ma_list tol limit in50 →
      bucket.Chain' (fun a b => |a.distance_pct| ≤ |b.distance_pct|)) := by
  constructor
  · intro tks tol res h
    rw [scan_at_200dma_ok_inv h]
    exact (List.sorted_insertionSort dailyLe _).chain'
  · intro inputs ma_list tol limit in50 m bucket h
    rw [mem_monthly_bucket h]
    have hs : (List.insertionSort monLe
        (monthlyMatchesFor m tol in50 inputs)).Pairwise monLe :=
      List.sorted_insertionSort monLe _
    have ht := List.Pairwise.sublist
      (List.take_sublist (max 1 limit).toNat
        (List.insertionSort monLe (monthlyMatchesFor m tol in50 inputs))) hs
    refine (ht.imp ?_).chain'
    intro a b hab
    rcases hab with hlt | ⟨heq, _⟩
    · exact le_of_lt hlt
    · exact le_of_eq heq

/-- C6 (witness): concrete instances of both parts: a 210-bar flat daily
series and a 2-bar monthly series each produce a sorted singleton result. -/
theorem c6_ma_sorted_witness :
    ([⟨"A.NS", "A", (100 : ℚ), 100, 0, false⟩] : List ScanResult).Chain'
      (fun a b => |a.distance_pct| ≤ |b.distance_pct|) ∧
    ([⟨"A.NS", "A", (100 : ℚ), 100, 0, false⟩] : List MonMatch).Chain'
      (fun a b => |a.distance_pct| ≤ |b.distance_pct|) :=
  ⟨c6_ma_sorted.1
      [⟨"A.NS", "A", false, .ok (some (.withClose (List.replicate 210 100)))⟩]
      (3/1000) [⟨"A.NS", "A", 100, 100, 0, false⟩] (by decide),
    c6_ma_sorted.2 [⟨"A.NS", some [100, 100]⟩] [2] (3/1000) 50 noTag 2
      [⟨"A.NS", "A", 100, 100, 0, false⟩] (by decide)⟩

/-- C7: with a result limit `L ≥ 1`, the volume-spike scan and every
monthly-MA bucket contain at most `L` matches (the engine truncates the
ranked list to `max(1, L)`). -/
theorem c7_result_limit :
    (∀ (inputs : List VolIn) (factor : ℚ) (limit : ℤ) (window : ℕ)
      (ulz : Bool) (in50 : String → Bool), 1 ≤ limit →
      ((top_volume_spikes inputs factor limit window ulz in50).length : ℤ) ≤ limit) ∧
    (∀ (inputs : List MonIn) (ma_list : List ℕ) (tol : ℚ) (limit : ℤ)
      (in50 : String → Bool) (m : ℕ) (bucket : List MonMatch), 1 ≤ limit →
      (m, bucket) ∈ scan_monthly_ma inputs ma_list tol limit in50 →
      (bucket.length : ℤ) ≤ limit) := by
  have key : ∀ (limit : ℤ), 1 ≤ limit → ((max 1 limit).toNat : ℤ) = limit := by
    intro limit hlim
    rw [max_eq_right hlim]
    exact Int.toNat_of_nonneg (le_trans one_pos.le hlim)
  constructor
  · intro inputs factor limit window ulz in50 hlim
    have h1 : (top_volume_spikes inputs factor limit window ulz in50).length ≤
        (max 1 limit).toNat := List.length_take_le _ _
    calc ((top_volume_spikes inputs factor limit window ulz in50).length : ℤ)
        ≤ ((max 1 limit).toNat : ℤ) := by exact_mod_cast h1
      _ = limit := key limit hlim
  · intro inputs ma_list tol limit in50 m bucket hlim h
    rw [mem_monthly_bucket h]
    have h1 : (List.take (max 1 limit).toNat
        (List.insertionSort monLe (monthlyMatchesFor m tol in50 inputs))).length ≤
        (max 1 limit).toNat := List.length_take_le _ _
    calc ((List.take (max 1 limit).toNat
          (List.insertionSort monLe (monthlyMatchesFor m tol in50 inputs))).length : ℤ)
        ≤ ((max 1 limit).toNat : ℤ) := by exact_mod_cast h1
      _ = limit := key limit hlim

/-- C7 (witness): concrete limit-1 scans over two qualifying symbols keep
at most one match in both engines. -/
theorem c7_result_limit_witness :
    ((top_volume_spikes
        [⟨"A.NS", some (List.replicate 19 100 ++ [400])⟩,
         ⟨"B.NS", some (List.replicate 19 100 ++ [500])⟩]
        2 1 15 false noTag).length : ℤ) ≤ 1 ∧
    (([⟨"A.NS", "A", (100 : ℚ), 100, 0, false⟩] : List MonMatch).length : ℤ) ≤ 1 :=
  ⟨c7_result_limit.1
      [⟨"A.NS", some (List.replicate 19 100 ++ [400])⟩,
       ⟨"B.NS", some (List.replicate 19 100 ++ [500])⟩]
      2 1 15 false noTag (by norm_num),
    by
      have h2 := c7_result_limit.2
        [⟨"A.NS", some [100, 100]⟩, ⟨"B.NS", some [100, 100]⟩] [2] (3/1000) 1
        noTag 2 [⟨"A.NS", "A", 100, 100, 0, false⟩] (by norm_num) (by decide)
      exact h2⟩

/-- C5: a symbol whose series is shorter than the statistic window never
appears in any scan result set: daily 200-DMA (window 200), monthly MA
(window `m`) and volume spike (window `window`). -/
theorem c5_short_series_excluded :
    (∀ (tks : List TickerIn) (tol : ℚ) (res : List ScanResult) (s : String),
      scan_at_200dma tks tol = Except.ok res →
      (∀ tk ∈ tks, tk.symbol = s →
        ∀ f, fetch_history tk.resp = some f → f.shape < 200) →
      s ∉ res.map ScanResult.symbol) ∧
    (∀ (inputs : List MonIn) (ma_list : List ℕ) (tol : ℚ) (limit : ℤ)
      (in50 : String → Bool) (m : ℕ) (bucket : List MonMatch) (s : String),
      (m, bucket) ∈ scan_monthly_ma inputs ma_list tol limit in50 →
      (∀ inp ∈ inputs, inp.symbol = s →
        ∀ closes, inp.hist = some closes → closes.length < m) →
      s ∉ bucket.map MonMatch.symbol) ∧
    (∀ (inputs : List VolIn) (factor : ℚ) (limit : ℤ) (window : ℕ)
      (ulz : Bool) (in50 : String → Bool) (s : String),
      (∀ inp ∈ inputs, inp.symbol = s →
        ∀ vol, inp.hist = some vol → vol.length < window) →
      s ∉ (top_volume_spikes inputs factor limit window ulz in50).map
        VolRow.symbol) := by
  refine ⟨?_, ?_, ?_⟩
  · intro tks tol res s hok hshort hmem
    rcases List.mem_map.mp hmem with ⟨r, hr, hsym⟩
    rw [scan_at_200dma_ok_inv hok] at hr
    have hr2 : r ∈ dailyCollect tks tol :=
      (List.perm_insertionSort dailyLe _).subset hr
    rcases mem_dailyCollect hr2 with ⟨tk, htk, hw⟩
    rcases workerDaily_ok_some_inv hw with ⟨closes, hf, hlen, _, hrsym⟩
    have hshape := hshort tk htk (hrsym ▸ hsym) (DailyFrame.withClose closes) hf
    simp only [DailyFrame.shape] at hshape
    omega
  · intro inputs ma_list tol limit in50 m bucket s hb hshort hmem
    rcases List.mem_map.mp hmem with ⟨r, hr, hsym⟩
    rw [mem_monthly_bucket hb] at hr
    have hr2 : r ∈ monthlyMatchesFor m tol in50 inputs :=
      (List.perm_insertionSort monLe _).subset (List.mem_of_mem_take hr)
    rcases mem_monthlyMatchesFor hr2 with ⟨inp, hinp, hrsym, closes, c, sv, d, hh, hc⟩
    have hlen := hshort inp hinp (hrsym ▸ hsym) closes hh
    rw [sma_distance_monthly_short hlen] at hc
    cases hc
  · intro inputs factor limit window ulz in50 s hshort hmem
    rcases List.mem_map.mp hmem with ⟨r, hr, hsym⟩
    rcases mem_top_volume_spikes hr with ⟨inp, hinp, ht⟩
    rcases taskVol_some_inv ht with ⟨hrsym, vol, today, mx, rat, hh, hc⟩
    have hlen := hshort inp hinp (hrsym ▸ hsym) vol hh
    rw [compute_volume_ratio_short hlen] at hc
    cases hc

/-- C5 (witness): a 150-bar daily series, a 1-bar monthly series against a
5-month window and a 10-bar volume series against a 100-day window are all
dropped. -/
theorem c5_short_series_excluded_witness :
    "S.NS" ∉ (([] : List ScanResult).map ScanResult.symbol) ∧
    "S.NS" ∉ (([] : List MonMatch).map MonMatch.symbol) ∧
    "S.NS" ∉ ((top_volume_spikes [⟨"S.NS", some (List.replicate 10 100)⟩]
      3 5 100 false noTag).map VolRow.symbol) :=
  ⟨c5_short_series_excluded.1
      [⟨"S.NS", "S", false, .ok (some (.withClose (List.replicate 150 100)))⟩]
      (3/1000) [] "S.NS" (by decide) (by decide),
    c5_short_series_excluded.2.1 [⟨"S.NS", some [100]⟩] [5] (3/1000) 50 noTag
      5 [] "S.NS" (by decide) (by decide),
    c5_short_series_excluded.2.2 [⟨"S.NS", some (List.replicate 10 100)⟩]
      3 5 100 false noTag "S.NS" (by decide)⟩

/-- C4: a rolling-statistic reference value of exactly 0 — the 200-day
moving average, the prior-window max volume, or the monthly moving
average — always excludes the symbol, regardless of tolerance. -/
theorem c4_zero_reference_excluded :
    (∀ (tks : List TickerIn) (tol : ℚ) (res : List ScanResult) (s : String),
      scan_at_200dma tks tol = Except.ok res →
      (∀ tk ∈ tks, tk.symbol = s →
        ∀ closes, fetch_history tk.resp = some (DailyFrame.withClose closes) →
          sma200_last closes = 0) →
      s ∉ res.map ScanResult.symbol) ∧
    (∀ (inputs : List VolIn) (factor : ℚ) (limit : ℤ) (window : ℕ)
      (ulz : Bool) (in50 : String → Bool) (s : String),
      (∀ inp ∈ inputs, inp.symbol = s →
        ∀ vol, inp.hist = some vol →
          ∀ today prior, volSelect vol ulz window = some (today, prior) →
            prior.max? = some 0) →
      s ∉ (top_volume_spikes inputs factor limit window ulz in50).map
        VolRow.symbol) ∧
    (∀ (closes : List ℚ) (n : ℕ), sma_last closes n = 0 →
      sma_distance_monthly closes n = none) := by
  refine ⟨?_, ?_, fun closes n h => sma_distance_monthly_zero h⟩
  · intro tks tol res s hok hzero hmem
    rcases List.mem_map.mp hmem with ⟨r, hr, hsym⟩
    rw [scan_at_200dma_ok_inv hok] at hr
    have hr2 : r ∈ dailyCollect tks tol :=
      (List.perm_insertionSort dailyLe _).subset hr
    rcases mem_dailyCollect hr2 with ⟨tk, htk, hw⟩
    rcases workerDaily_ok_some_inv hw with ⟨closes, hf, _, hnz, hrsym⟩
    exact hnz (hzero tk htk (hrsym ▸ hsym) closes hf)
  · intro inputs factor limit window ulz in50 s hzero hmem
    rcases List.mem_map.mp hmem with ⟨r, hr, hsym⟩
    rcases mem_top_volume_spikes hr with ⟨inp, hinp, ht⟩
    rcases taskVol_some_inv ht with ⟨hrsym, vol, today, mx, rat, hh, hc⟩
    rcases compute_volume_ratio_some_inv hc with ⟨_, prior, hsel, hmax, hpos, _⟩
    have hz := hzero inp hinp (hrsym ▸ hsym) vol hh today prior hsel
    rw [hz] at hmax
    cases hmax
    exact hpos le_rfl

/-- C4 (witness): a 210-bar daily series ending in 200 zero closes, a
volume series whose 15-bar prior window is all zeros, and a 5-bar zero
monthly series are all excluded. -/
theorem c4_zero_reference_excluded_witness :
    "Z.NS" ∉ (([] : List ScanResult).map ScanResult.symbol) ∧
    "Z.NS" ∉ ((top_volume_spikes [⟨"Z.NS", some (List.replicate 19 0 ++ [5])⟩]
      3 5 15 false noTag).map VolRow.symbol) ∧
    sma_distance_monthly (List.replicate 5 0) 5 = none :=
  ⟨c4_zero_reference_excluded.1
      [⟨"Z.NS", "Z", false,
        .ok (some (.withClose (List.replicate 10 1 ++ List.replicate 200 0)))⟩]
      (3/1000) [] "Z.NS" (by decide)
      (by
        intro tk htk hsym closes hf
        rw [List.mem_singleton] at htk
        subst htk
        dsimp only at hf
        rw [show fetch_history (FetchResp.ok (some (DailyFrame.withClose
            (List.replicate 10 1 ++ List.replicate 200 0)))) =
            some (DailyFrame.withClose
              (List.replicate 10 1 ++ List.replicate 200 0)) from by decide] at hf
        cases hf
        decide),
    c4_zero_reference_excluded.2.1 [⟨"Z.NS", some (List.replicate 19 0 ++ [5])⟩]
      3 5 15 false noTag "Z.NS"
      (by
        intro inp hinp hsym vol hh today prior hsel
        rw [List.mem_singleton] at hinp
        subst hinp
        dsimp only at hh
        cases hh
        rw [show volSelect (List.replicate 19 0 ++ [5]) false 15 =
            some (5, List.replicate 15 0) from by decide] at hsel
        cases hsel
        decide),
    c4_zero_reference_excluded.2.2 (List.replicate 5 0) 5 (by decide)⟩

theorem volSelect_false_eq {vol : List ℤ} {window : ℕ} {t : ℤ}
    (hg : vol.getLast? = some t) :
    volSelect vol false window = some (t, lastN window vol.dropLast) := by
  unfold volSelect
  rw [if_neg Bool.false_ne_true, hg]

theorem volSelect_true_eq {vol : List ℤ} {window : ℕ} {i : ℕ}
    (hi : lastPosIdx vol = some i) :
    volSelect vol true window = some (vol.getD i 0, lastN window (vol.take i)) := by
  unfold volSelect
  rw [if_pos rfl, hi]

theorem compute_volume_ratio_eq_some {vol : List ℤ} {window : ℕ} {ulz : Bool}
    {today : ℤ} {prior : List ℤ} {m : ℤ}
    (hlen : ¬ vol.length < max 20 (window + 5))
    (hsel : volSelect vol ulz window = some (today, prior))
    (hpne : prior ≠ [])
    (hm : prior.max? = some m)
    (hmpos : ¬ m ≤ 0) :
    compute_volume_ratio vol window ulz =
      some (today, m, (today : ℚ) / (m : ℚ)) := by
  unfold compute_volume_ratio
  rw [if_neg hlen, hsel]
  show (if prior = [] then none
    else match prior.max? with
      | none => none
      | some m2 =>
        if m2 ≤ 0 then none else some (today, m2, (today : ℚ) / (m2 : ℚ))) = _
  rw [if_neg hpne, hm]
  show (if m ≤ 0 then none else some (today, m, (today : ℚ) / (m : ℚ))) = _
  rw [if_neg hmpos]

/-- C3 (counterexample): with window 100, a 101-bar series has exactly 100
prior bars — sufficient per the claim — yet `compute_volume_ratio` drops
it, because it requires `max(20, window + 5) = 105` bars in total; and
under use-last-nonzero a 21-bar series whose designated today bar leaves
only 4 prior bars (fewer than the window of 16) after excluding the
trailing zero-volume bars is NOT dropped but scored against the short
prior window. -/
theorem c3_counterexample :
    compute_volume_ratio (List.replicate 101 5) 100 false = none ∧
    (List.replicate 101 (5 : ℤ)).length - 1 = 100 ∧
    volSelect (List.replicate 5 7 ++ List.replicate 16 0) true 16 =
      some (7, List.replicate 4 7) ∧
    (List.replicate 4 (7 : ℤ)).length < 16 ∧
    compute_volume_ratio (List.replicate 5 7 ++ List.replicate 16 0) 16 true =
      some (7, 7, 1) := by decide

/-- C3 (amended): `compute_volume_ratio` reports insufficient data exactly
when fewer than `max(20, window + 5)` bars exist (not when fewer than
`window` prior bars remain): below that bound it always returns `none`;
at or above the bound with a positive window it returns a value whenever
the prior-window max is positive — in the use-last-nonzero case even when
the designated today bar leaves fewer than `window` prior bars, requiring
only that some bar precede it. -/
theorem c3_insufficiency_policy :
    (∀ (vol : List ℤ) (window : ℕ) (ulz : Bool),
      vol.length < max 20 (window + 5) →
      compute_volume_ratio vol window ulz = none) ∧
    (∀ (vol : List ℤ) (window : ℕ),
      ¬ vol.length < max 20 (window + 5) → 0 < window →
      (∀ m, (lastN window vol.dropLast).max? = some m → 0 < m) →
      ∃ out, compute_volume_ratio vol window false = some out) ∧
    (∀ (vol : List ℤ) (window : ℕ) (i : ℕ),
      ¬ vol.length < max 20 (window + 5) → 0 < window →
      lastPosIdx vol = some i → 0 < i →
      (∀ m, (lastN window (vol.take i)).max? = some m → 0 < m) →
      ∃ out, compute_volume_ratio vol window true = some out) := by
  refine ⟨?_, ?_, ?_⟩
  · intro vol window ulz h
    unfold compute_volume_ratio
    rw [if_pos h]
  · intro vol window hlen hw hmax
    have h20 : 20 ≤ vol.length := le_trans (le_max_left _ _) (not_lt.mp hlen)
    have hvne : vol ≠ [] := by
      intro h
      rw [h] at h20
      simp at h20
    obtain ⟨t, hg⟩ : ∃ t, vol.getLast? = some t := by
      rcases hgl : vol.getLast? with _ | t
      · exact absurd (List.getLast?_eq_none_iff.mp hgl) hvne
      · exact ⟨t, rfl⟩
    have hdl : vol.dropLast.length = vol.length - 1 := List.length_dropLast vol
    have hpne : lastN window vol.dropLast ≠ [] := by
      intro h
      have hlen2 := congrArg List.length h
      simp only [lastN, List.length_drop, List.length_nil] at hlen2
      omega
    obtain ⟨m, hm⟩ : ∃ m, (lastN window vol.dropLast).max? = some m := by
      rcases hmm : (lastN window vol.dropLast).max? with _ | m
      · exact absurd (List.max?_eq_none_iff.mp hmm) hpne
      · exact ⟨m, rfl⟩
    have hmpos := hmax m hm
    exact ⟨(t, m, (t : ℚ) / (m : ℚ)),
      compute_volume_ratio_eq_some hlen (volSelect_false_eq hg) hpne hm
        (not_le.mpr hmpos)⟩
  · intro vol window i hlen hw hi hipos hmax
    have h20 : 20 ≤ vol.length := le_trans (le_max_left _ _) (not_lt.mp hlen)
    have hpne : lastN window (vol.take i) ≠ [] := by
      intro h
      have hlen2 := congrArg List.length h
      simp only [lastN, List.length_drop, List.length_take, List.length_nil] at hlen2
      omega
    obtain ⟨m, hm⟩ : ∃ m, (lastN window (vol.take i)).max? = some m := by
      rcases hmm : (lastN window (vol.take i)).max? with _ | m
      · exact absurd (List.max?_eq_none_iff.mp hmm) hpne
      · exact ⟨m, rfl⟩
    have hmpos := hmax m hm
    exact ⟨(vol.getD i 0, m, ((vol.getD i 0 : ℤ) : ℚ) / (m : ℚ)),
      compute_volume_ratio_eq_some hlen (volSelect_true_eq hi) hpne hm
        (not_le.mpr hmpos)⟩

/-- C3 (witness): 10 bars against window 100 are dropped; 105 positive bars
against window 100 are kept; a 21-bar use-last-nonzero series with only 4
effective prior bars against window 16 is kept. -/
theorem c3_insufficiency_policy_witness :
    compute_volume_ratio (List.replicate 10 1) 100 false = none ∧
    compute_volume_ratio (List.replicate 105 5) 100 false ≠ none ∧
    compute_volume_ratio (List.replicate 5 7 ++ List.replicate 16 0) 16 true
      ≠ none := by
  refine ⟨c3_insufficiency_policy.1 (List.replicate 10 1) 100 false (by decide),
    ?_, ?_⟩
  · obtain ⟨out, hout⟩ := c3_insufficiency_policy.2.1 (List.replicate 105 5) 100
      (by decide) (by norm_num)
      (by
        intro m hm
        rw [show (lastN 100 (List.replicate 105 (5 : ℤ)).dropLast).max? = some 5
          from by decide] at hm
        cases hm
        norm_num)
    rw [hout]
    simp
  · obtain ⟨out, hout⟩ := c3_insufficiency_policy.2.2
      (List.replicate 5 7 ++ List.replicate 16 0) 16 4
      (by decide) (by norm_num) (by decide) (by norm_num)
      (by
        intro m hm
        have h7 : (lastN 16 (List.take 4
            (List.replicate 5 (7 : ℤ) ++ List.replicate 16 0))).max? = some 7 := by
          decide
        rw [h7] at hm
        cases hm
        norm_num)
    rw [hout]
    simp

/-- C2 (counterexample): a per-symbol unit fault after the fetch — here a
300-row frame with no `Close` column, so `df["Close"]` raises — escapes
the gather and aborts the whole scan (`.error`), instead of being treated
as no-data for that symbol; the sibling symbol alone would have produced a
clean result. -/
theorem c2_counterexample :
    scan_at_200dma
      [⟨"G.NS", "G", false, .ok none⟩,
       ⟨"B.NS", "B", false, .ok (some (.noClose 300))⟩] (3/1000) =
      Except.error () ∧
    scan_at_200dma [⟨"G.NS", "G", false, .ok none⟩] (3/1000) =
      Except.ok [] := by decide

/-- C2 (amended): a fault inside the history fetch is caught inside
`fetch_history` and treated as no-data for that symbol only; but a fault
raised in a unit of work after the fetch is re-raised by `fut.result()` in
the gather loop: the scan aborts exactly when some unit faults. -/
theorem c2_fault_propagation :
    (∀ (tk : TickerIn) (tol : ℚ), tk.resp = FetchResp.raises →
      workerDaily tk tol = Except.ok none) ∧
    (∀ (tks : List TickerIn) (tol : ℚ),
      scan_at_200dma tks tol = Except.error () ↔
        ∃ tk ∈ tks, workerDaily tk tol = Except.error ()) := by
  constructor
  · intro tk tol h
    unfold workerDaily
    rw [h]
    rfl
  · intro tks tol
    unfold scan_at_200dma
    rw [exceptMap_eq_error]
    exact gatherDaily_eq_error_iff tks tol

/-- C2 (witness): a unit whose fetch raises is treated as no-data. -/
theorem c2_fault_propagation_witness :
    workerDaily ⟨"R.NS", "R", false, FetchResp.raises⟩ (3/1000) =
      Except.ok none :=
  c2_fault_propagation.1 ⟨"R.NS", "R", false, FetchResp.raises⟩ (3/1000) rfl

/-- C8 (counterexample): two runs over the same two-symbol universe with
identical series and limit 1, differing only in unit completion order,
return different result sets: the rank keys tie, the stable sort keeps
completion order, and truncation then keeps different symbols. -/
theorem c8_counterexample :
    (([⟨"X.NS", some (List.replicate 19 100 ++ [400])⟩,
       ⟨"Y.NS", some (List.replicate 19 100 ++ [400])⟩] : List VolIn).Perm
      [⟨"Y.NS", some (List.replicate 19 100 ++ [400])⟩,
       ⟨"X.NS", some (List.replicate 19 100 ++ [400])⟩]) ∧
    top_volume_spikes
      [⟨"X.NS", some (List.replicate 19 100 ++ [400])⟩,
       ⟨"Y.NS", some (List.replicate 19 100 ++ [400])⟩] 2 1 15 false noTag ≠
    top_volume_spikes
      [⟨"Y.NS", some (List.replicate 19 100 ++ [400])⟩,
       ⟨"X.NS", some (List.replicate 19 100 ++ [400])⟩] 2 1 15 false noTag := by
  constructor
  · exact List.Perm.swap _ _ _
  · decide

/-- C8 (amended): the scan output is invariant under unit completion order
PROVIDED the gathered matches carry pairwise-distinct rank keys (absolute
distance for the daily scan; `(multiple, today_volume)` for the volume
scan); when keys tie, the stable sort preserves completion order and the
output — after truncation even its membership — can depend on it. -/
theorem c8_deterministic_given_distinct_keys :
    (∀ (tks₁ tks₂ : List TickerIn) (tol : ℚ),
      tks₁.Perm tks₂ →
      (∀ a ∈ dailyCollect tks₁ tol, ∀ b ∈ dailyCollect tks₁ tol,
        |a.distance_pct| = |b.distance_pct| → a = b) →
      scan_at_200dma tks₁ tol = scan_at_200dma tks₂ tol) ∧
    (∀ (inputs₁ inputs₂ : List VolIn) (factor : ℚ) (limit : ℤ) (window : ℕ)
      (ulz : Bool) (in50 : String → Bool),
      inputs₁.Perm inputs₂ →
      (∀ a ∈ gatherVol inputs₁ window ulz factor in50,
       ∀ b ∈ gatherVol inputs₁ window ulz factor in50,
        a.multiple = b.multiple → a.today_volume = b.today_volume → a = b) →
      top_volume_spikes inputs₁ factor limit window ulz in50 =
        top_volume_spikes inputs₂ factor limit window ulz in50) := by
  constructor
  · intro tks₁ tks₂ tol hperm hkeys
    by_cases herr : ∃ tk ∈ tks₁, workerDaily tk tol = Except.error ()
    · have h₁ : gatherDaily tks₁ tol = Except.error () :=
        (gatherDaily_eq_error_iff tks₁ tol).mpr herr
      have herr₂ : ∃ tk ∈ tks₂, workerDaily tk tol = Except.error () := by
        obtain ⟨tk, htk, he⟩ := herr
        exact ⟨tk, hperm.subset htk, he⟩
      have h₂ : gatherDaily tks₂ tol = Except.error () :=
        (gatherDaily_eq_error_iff tks₂ tol).mpr herr₂
      unfold scan_at_200dma
      rw [h₁, h₂]
    · have hall₁ : ∀ tk ∈ tks₁, workerDaily tk tol ≠ Except.error () := by
        intro tk htk he
        exact herr ⟨tk, htk, he⟩
      have hall₂ : ∀ tk ∈ tks₂, workerDaily tk tol ≠ Except.error () := by
        intro tk htk he
        exact herr ⟨tk, hperm.symm.subset htk, he⟩
      have h₁ : gatherDaily tks₁ tol = Except.ok (dailyCollect tks₁ tol) :=
        (gatherDaily_eq_ok_iff _ _ _).mpr ⟨hall₁, rfl⟩
      have h₂ : gatherDaily tks₂ tol = Except.ok (dailyCollect tks₂ tol) :=
        (gatherDaily_eq_ok_iff _ _ _).mpr ⟨hall₂, rfl⟩
      have hpc : (dailyCollect tks₁ tol).Perm (dailyCollect tks₂ tol) :=
        hperm.filterMap _
      have hsorteq : List.insertionSort dailyLe (dailyCollect tks₁ tol) =
          List.insertionSort dailyLe (dailyCollect tks₂ tol) := by
        apply pairwise_perm_eq
        · exact ((List.perm_insertionSort dailyLe _).trans hpc).trans
            (List.perm_insertionSort dailyLe _).symm
        · exact List.sorted_insertionSort dailyLe _
        · exact List.sorted_insertionSort dailyLe _
        · intro a ha b hb hab hba
          have ha2 : a ∈ dailyCollect tks₁ tol :=
            (List.perm_insertionSort dailyLe _).subset ha
          have hb2 : b ∈ dailyCollect tks₁ tol :=
            (List.perm_insertionSort dailyLe _).subset hb
          exact hkeys a ha2 b hb2 (le_antisymm hab hba)
      unfold scan_at_200dma
      rw [h₁, h₂]
      simp only [Except.map]
      rw [hsorteq]
  · intro inputs₁ inputs₂ factor limit window ulz in50 hperm hkeys
    have hpg : (gatherVol inputs₁ window ulz factor in50).Perm
        (gatherVol inputs₂ window ulz factor in50) := hperm.filterMap _
    have hsorteq : List.insertionSort volLe (gatherVol inputs₁ window ulz factor in50) =
        List.insertionSort volLe (gatherVol inputs₂ window ulz factor in50) := by
      apply pairwise_perm_eq
      · exact ((List.perm_insertionSort volLe _).trans hpg).trans
          (List.perm_insertionSort volLe _).symm
      · exact List.sorted_insertionSort volLe _
      · exact List.sorted_insertionSort volLe _
      · intro a ha b hb hab hba
        have ha2 : a ∈ gatherVol inputs₁ window ulz factor in50 :=
          (List.perm_insertionSort volLe _).subset ha
        have hb2 : b ∈ gatherVol inputs₁ window ulz factor in50 :=
          (List.perm_insertionSort volLe _).subset hb
        have hk := lexLe_antisymm hab hba
        have hm : b.multiple = a.multiple := congrArg Prod.fst hk
        have ht : b.today_volume = a.today_volume := congrArg Prod.snd hk
        exact hkeys a ha2 b hb2 hm.symm ht.symm
    unfold top_volume_spikes
    rw [hsorteq]

/-- C8 (witness): with pairwise-distinct rank keys, swapping completion
order leaves both the daily and the volume scan outputs unchanged. -/
theorem c8_deterministic_witness :
    scan_at_200dma
      [⟨"A.NS", "A", false, .ok (some (.withClose (List.replicate 210 100)))⟩,
       ⟨"B.NS", "B", false, .ok (some (.withClose
         (List.replicate 209 100 ++ [101])))⟩] 1 =
    scan_at_200dma
      [⟨"B.NS", "B", false, .ok (some (.withClose
         (List.replicate 209 100 ++ [101])))⟩,
       ⟨"A.NS", "A", false, .ok (some (.withClose (List.replicate 210 100)))⟩] 1 ∧
    top_volume_spikes
      [⟨"A.NS", some (List.replicate 19 100 ++ [400])⟩,
       ⟨"B.NS", some (List.replicate 19 100 ++ [300])⟩] 2 5 15 false noTag =
    top_volume_spikes
      [⟨"B.NS", some (List.replicate 19 100 ++ [300])⟩,
       ⟨"A.NS", some (List.replicate 19 100 ++ [400])⟩] 2 5 15 false noTag :=
  ⟨c8_deterministic_given_distinct_keys.1 _ _ 1 (List.Perm.swap _ _ _) (by decide),
    c8_deterministic_given_distinct_keys.2 _ _ 2 5 15 false noTag
      (List.Perm.swap _ _ _) (by decide)⟩

/-- C9 (counterexample): two volume-spike requests that differ only in the
override symbol list — which changes the output under the same stable data
source — build identical cache keys, because the key encodes only the
symbol count (`count_{len(symbols)}`), not symbol identity. -/
theorem c9_counterexample :
    volspike_cache_key nifty100Str 100 3 5 [relSym] false =
      volspike_cache_key nifty100Str 100 3 5 [tcsSym] false ∧
    ([relSym] : List String) ≠ [tcsSym] ∧
    top_volume_spikes [⟨relSym, dataC9 relSym⟩] 3 5 100 false noTag ≠
      top_volume_spikes [⟨tcsSym, dataC9 tcsSym⟩] 3 5 100 false noTag := by
  refine ⟨by decide, by decide, by decide⟩

/-- C9 (amended): the volume-spike and monthly-MA cache keys deterministically
encode the universe name, the numeric knobs and the symbol-list LENGTH, but
not symbol identity: two requests that differ only in their (equal-length)
override symbol lists share a key. -/
theorem c9_cache_key_ignores_symbol_identity :
    (∀ (univ : String) (window : ℤ) (factor : ℚ) (limit : ℤ)
      (syms₁ syms₂ : List String) (ulz : Bool),
      syms₁.length = syms₂.length →
      volspike_cache_key univ window factor limit syms₁ ulz =
        volspike_cache_key univ window factor limit syms₂ ulz) ∧
    (∀ (univ : String) (ma_list : List ℤ) (tol : ℚ) (limit : ℤ)
      (syms₁ syms₂ : List String),
      syms₁.length = syms₂.length →
      ma_monthly_cache_key univ ma_list tol limit syms₁ =
        ma_monthly_cache_key univ ma_list tol limit syms₂) := by
  constructor
  · intro univ window factor limit syms₁ syms₂ ulz h
    unfold volspike_cache_key
    rw [h]
  · intro univ ma_list tol limit syms₁ syms₂ h
    unfold ma_monthly_cache_key
    rw [h]

/-- C9 (witness): the one-symbol override lists for two different symbols
have equal length, hence equal keys. -/
theorem c9_cache_key_witness :
    volspike_cache_key nifty100Str 15 2 5 [relSym] false =
      volspike_cache_key nifty100Str 15 2 5 [tcsSym] false ∧
    ma_monthly_cache_key nifty100Str [50, 100] (3/1000) 50 [relSym] =
      ma_monthly_cache_key nifty100Str [50, 100] (3/1000) 50 [tcsSym] :=
  ⟨c9_cache_key_ignores_symbol_identity.1 nifty100Str 15 2 5 [relSym] [tcsSym]
      false rfl,
    c9_cache_key_ignores_symbol_identity.2 nifty100Str [50, 100] (3/1000) 50
      [relSym] [tcsSym] rfl⟩

/-- C10 (counterexample): the volume view accepts the non-positive window
`-5` as-is — it is parsed successfully, so no default is substituted,
contradicting the claim that a non-positive window is replaced by the
documented default (100). -/
theorem c10_counterexample :
    parse_window_volume (some negFiveStr) = -5 ∧ (-5 : ℤ) ≤ 0 ∧
      parse_window_volume (some negFiveStr) ≠ 100 := by decide

/-- C10 (amended): a NON-NUMERIC parameter is substituted by its
documented default and the request is served (tolerance 0.003, factor 3.0,
limits 5 and 50, window 100); non-positive windows are filtered out only in
the monthly view's MA list, which keeps positive entries and falls back to
[50, 100]; the volume view passes a parsed non-positive window through
unchanged. -/
theorem c10_param_defaults :
    (∀ s, pyParseFloat s = none → parse_tol (some s) = 3/1000) ∧
    (∀ s, pyParseFloat s = none → parse_factor (some s) = 3) ∧
    (∀ s, pyParseInt s = none → parse_window_volume (some s) = 100) ∧
    (∀ s, pyParseInt s = none → parse_limit_volume (some s) = 5) ∧
    (∀ s, pyParseInt s = none → parse_limit_monthly (some s) = 50) ∧
    (∀ s, ∀ v ∈ parse_ma_list (some s), 0 < v) ∧
    parse_ma_list (some negFiveStr) = [50, 100] := by
  refine ⟨?_, ?_, ?_, ?_, ?_, ?_, by decide⟩
  · intro s h
    show (pyParseFloat s).getD (3/1000) = 3/1000
    rw [h]
    rfl
  · intro s h
    show (pyParseFloat s).getD 3 = 3
    rw [h]
    rfl
  · intro s h
    show (pyParseInt s).getD 100 = 100
    rw [h]
    rfl
  · intro s h
    show (pyParseInt s).getD 5 = 5
    rw [h]
    rfl
  · intro s h
    show (pyParseInt s).getD 50 = 50
    rw [h]
    rfl
  · intro s v hv
    have hfm : ∀ (toks : List (List Char)),
        v ∈ toks.filterMap (fun tokRaw =>
          if trimChars tokRaw = [] then none
          else
            match pyParseIntChars (trimChars tokRaw) with
            | none => none
            | some v2 => if 0 < v2 then some v2 else none) → 0 < v := by
      intro toks hmem
      rcases List.mem_filterMap.mp hmem with ⟨tok, _, hf⟩
      split at hf
      · cases hf
      · split at hf
        · cases hf
        · rename_i v2 hparse
          split at hf
          · rename_i hpos
            simp only [Option.some.injEq] at hf
            subst hf
            exact hpos
          · cases hf
    have h50100 : v ∈ ([50, 100] : List ℤ) → 0 < v := by
      intro hm
      rcases List.mem_cons.mp hm with h1 | h2
      · rw [h1]
        norm_num
      · rcases List.mem_cons.mp h2 with h1 | h3
        · rw [h1]
          norm_num
        · cases h3
    unfold parse_ma_list at hv
    dsimp only at hv
    split at hv <;> split at hv
    · exact h50100 hv
    · exact hfm _ hv
    · exact h50100 hv
    · exact hfm _ hv

/-- C10 (witness): a non-numeric tolerance, window and factor all fall back
to their documented defaults. -/
theorem c10_param_defaults_witness :
    parse_tol (some abcStr) = 3/1000 ∧
    parse_window_volume (some abcStr) = 100 ∧
    parse_factor (some abcStr) = 3 :=
  ⟨c10_param_defaults.1 abcStr (by decide),
    c10_param_defaults.2.2.1 abcStr (by decide),
    c10_param_defaults.2.1 abcStr (by decide)⟩
